import Mathlib

/-!
# Veschatel: stream delivery and selection

A shallow embedding of three request handlers of `server/src/controller.js`
(`sendStream`, `streamsSelection`, `preview`) together with the properties the
specification states about them.

Conventions of the embedding

* JavaScript numbers that hold byte offsets and counts are `Nat` or `Int`; the
  embedding is exact for values below `2 ^ 53`, where `Number` is exact.
* A handler's effects (`res.writeHead`, `res.json`, `next(err)`, `exec`) are
  returned as fields of a result record, in the order the source performs them.
* The stream store, the file system and the helpers of `./miscellaneous` are
  not part of the embedded sources; they enter as arguments.
-/

namespace Veschatel

/-! ## Shared data -/

/-- Error object handed to `next`: `new Error(message)` with its optional `status` property. -/
structure HttpError where
  message : String
  status : Option Nat
deriving DecidableEq, Repr

/-- Row returned by `getStreamById`, restricted to the field the handlers read
(`stream.path`, nullable). -/
structure StreamRecord where
  path : Option String
deriving DecidableEq, Repr

/-! ## `sendStream` -/

/-- The constant `const CHUNK_SIZE = 10 ** 6`. -/
def CHUNK_SIZE : Nat := 10 ^ 6

/-- The digits kept by `range.replace(/\D/g, '')`. -/
def stripNonDigits (range : String) : List Char :=
  range.toList.filter Char.isDigit

/-- Value of `Number(s)` for a string `s` of decimal digits (`Number('')` is `0`). -/
def numberOfDigits (ds : List Char) : Nat :=
  ds.foldl (fun acc c => 10 * acc + (c.toNat - 48)) 0

/-- The start offset `Number(range.replace(/\D/g, ''))`. -/
def parseStart (range : String) : Nat :=
  numberOfDigits (stripNonDigits range)

/-- The end offset `Math.min(start + CHUNK_SIZE, videoSize - 1)`. -/
def rangeEnd (start videoSize : Nat) : Int :=
  min ((start : Int) + (CHUNK_SIZE : Int)) ((videoSize : Int) - 1)

/-- The numeric content of the header object built by `sendStream`:
`Content-Range: bytes start-end/videoSize` and `Content-Length`. -/
structure RangeHeaders where
  start : Nat
  end_ : Int
  videoSize : Nat
  contentLength : Int
deriving DecidableEq, Repr

/-- The template literal of the `Content-Range` header. -/
def contentRange (headers : RangeHeaders) : String :=
  "bytes " ++ toString headers.start ++ "-" ++ toString headers.end_ ++ "/" ++
    toString headers.videoSize

/-- What one call of `sendStream` did: the status line and headers given to
`res.writeHead`, the byte interval of the read stream piped into the response,
and the error given to `next`. -/
structure SendStreamResult where
  head : Option (Nat × RangeHeaders)
  read : Option (Nat × Int)
  error : Option HttpError
deriving DecidableEq, Repr

/-- The `catch` branch reached before anything was written. -/
def SendStreamResult.failed (err : HttpError) : SendStreamResult :=
  { head := none, read := none, error := some err }

/-- The handler `sendStream`. `stream` is what `getStreamById(id)` resolved to,
`range` is `req.headers.range`, and `statSize path` is `fs.statSync(path).size`
(`none` when `statSync` throws). `fs.createReadStream` rejects an interval with
`end < 0` or `start > end` by throwing, after `writeHead` has run. -/
def sendStream (statSize : String → Option Nat) (stream : Option StreamRecord)
    (range : Option String) : SendStreamResult :=
  match stream with
  | none => SendStreamResult.failed { message := "stream not found", status := none }
  | some stream =>
    match range with
    | none => SendStreamResult.failed { message := "Requires Range header", status := some 400 }
    | some range =>
      if range.isEmpty then
        SendStreamResult.failed { message := "Requires Range header", status := some 400 }
      else
        match stream.path with
        | none =>
          SendStreamResult.failed
            { message := "The path argument must be of type string", status := none }
        | some videoPath =>
          match statSize videoPath with
          | none =>
            SendStreamResult.failed
              { message := "ENOENT: no such file or directory", status := none }
          | some videoSize =>
            let start := parseStart range
            let end_ := rangeEnd start videoSize
            let contentLength := end_ - (start : Int) + 1
            let headers : RangeHeaders :=
              { start := start, end_ := end_, videoSize := videoSize,
                contentLength := contentLength }
            if 0 ≤ end_ ∧ (start : Int) ≤ end_ then
              { head := some (206, headers), read := some (start, end_), error := none }
            else
              { head := some (206, headers), read := none,
                error := some { message := "The value of start is out of range", status := none } }

/-- The start offsets of a client that requests the file piece by piece:
`start_0 = 0` and `start_(k+1) = end_k + 1`, with `end_k` the end offset
`sendStream` computes for `start_k`. -/
def startAt (videoSize : Nat) : Nat → Nat
  | 0 => 0
  | k + 1 => (rangeEnd (startAt videoSize k) videoSize + 1).toNat

/-- The header a client sends to ask for the bytes from `start` on:
`Range: bytes=<start>-`. -/
def rangeHeader (start : Nat) : String :=
  "bytes=" ++ toString start ++ "-"

/-- The index of the request that reaches the end of a file of `videoSize`
bytes when each request starts one byte after the previous end. -/
def lastRequest (videoSize : Nat) : Nat :=
  (videoSize - 1) / (CHUNK_SIZE + 1)

/-- A file system in which every path names a file of the given size. -/
def constSize (videoSize : Nat) : String → Option Nat :=
  fun _ => some videoSize

/-! ## `streamsSelection` -/

/-- The `dataValues` object of a finished-stream row, with the `source`
property the handler adds. User ids are the store's integer primary keys. -/
structure StreamData where
  id : Nat
  user_id : Nat
  path : Option String
  source : Option String
deriving DecidableEq, Repr

/-- Whether an integer property key is an array index, that is below
`2 ^ 32 - 1`. `Object.keys` lists array-index keys first, ascending; every other
key follows in the order in which it was created. -/
def isArrayIndex (k : Nat) : Bool :=
  decide (k < 4294967295)

/-- A JavaScript object whose property names are integer keys. The entries are
held in the order `Object.keys` lists them: array-index keys ascending, then
the other keys in creation order. -/
abbrev JsObject (α : Type) := List (Nat × α)

/-- Property read `obj[k]` (`none` is `undefined`). -/
def jsGet {α : Type} : JsObject α → Nat → Option α
  | [], _ => none
  | (k', v) :: rest, k => if k' = k then some v else jsGet rest k

/-- Property write `obj[k] = v`: an existing entry is overwritten in place; a
new array-index key goes before the first entry that is no array index or has
a larger key; any other new key goes last. -/
def jsSet {α : Type} : JsObject α → Nat → α → JsObject α
  | [], k, v => [(k, v)]
  | (k', v') :: rest, k, v =>
    if k = k' then (k, v) :: rest
    else if (isArrayIndex k && (!isArrayIndex k' || decide (k < k'))) = true then
      (k, v) :: (k', v') :: rest
    else (k', v') :: jsSet rest k v

/-- The array `Object.keys(obj)`. -/
def objectKeys {α : Type} (obj : JsObject α) : List Nat :=
  obj.map Prod.fst

/-- Body of `userStreams.forEach`: create `structure[el.user_id]` when it is
missing, then push `el.dataValues` onto it. -/
def groupStep (struct : JsObject (List StreamData)) (el : StreamData) :
    JsObject (List StreamData) :=
  let struct1 :=
    if (jsGet struct el.user_id).isNone then jsSet struct el.user_id [] else struct
  jsSet struct1 el.user_id ((jsGet struct1 el.user_id).getD [] ++ [el])

/-- The assignment `obj.source = makeStreamSource(obj)`; `makeStreamSource`
belongs to `./miscellaneous` and is an argument. -/
def annotate (makeStreamSource : StreamData → String) (obj : StreamData) : StreamData :=
  { obj with source := some (makeStreamSource obj) }

/-- Body of `keys.forEach` in round `i`, on the pair `(result, added)`. -/
def roundStep (makeStreamSource : StreamData → String) (struct : JsObject (List StreamData))
    (amount : Int) (i : Nat) (acc : List StreamData × Bool) (el : Nat) :
    List StreamData × Bool :=
  match (jsGet struct el).bind (fun arr => arr[i]?) with
  | some obj =>
    if (acc.1.length : Int) < amount then (acc.1 ++ [annotate makeStreamSource obj], true)
    else acc
  | none => acc

/-- The loop `for (let i = 0; true; i += 1)`, run for at most `fuel` rounds;
`none` when the fuel is used up before the loop breaks. -/
def roundLoop (makeStreamSource : StreamData → String) (struct : JsObject (List StreamData))
    (keys : List Nat) (amount : Int) : Nat → Nat → List StreamData → Option (List StreamData)
  | 0, _, _ => none
  | fuel + 1, i, result =>
    let acc := keys.foldl (roundStep makeStreamSource struct amount i) (result, false)
    if !acc.2 || decide (amount ≤ (acc.1.length : Int)) then some acc.1
    else roundLoop makeStreamSource struct keys amount fuel (i + 1) acc.1

/-- The handler `streamsSelection`: the list given to `res.json`. `amount` is
`+req.params.amount`, taken to be an integer; `users` the ids of the rows `getUsersWithStreams`
resolved to (`none` for a null result), `userStreams` the rows
`getUserFinishedStreams` resolves to. The result is `none` only when `fuel`
rounds did not suffice. -/
def streamsSelection (fuel : Nat) (makeStreamSource : StreamData → String) (amount : Int)
    (users : Option (List Nat)) (userStreams : List StreamData) : Option (List StreamData) :=
  match users with
  | none => some []
  | some [] => some []
  | some (_ :: _) =>
    let struct := userStreams.foldl groupStep []
    let keys := objectKeys struct
    roundLoop makeStreamSource struct keys amount fuel 0 []

/-- The order in which the handler visits the users in every round:
`Object.keys(structure)` of the grouping object built from the fetched rows. -/
def selectionOrder (userStreams : List StreamData) : List Nat :=
  objectKeys (userStreams.foldl groupStep [])

/-- The order of two keys `a`, `b` with `a` listed before `b` by `Object.keys`:
they differ, and when `b` is an array index so is `a`, and `a` is smaller. -/
def KeyOrder (a b : Nat) : Prop :=
  a ≠ b ∧ (isArrayIndex b = true → isArrayIndex a = true ∧ a < b)

/-- The streams of user `u` among the fetched rows, in fetched order. -/
def streamsOf (userStreams : List StreamData) (u : Nat) : List StreamData :=
  userStreams.filter (fun s => decide (s.user_id = u))

/-- The round-robin sequence of the specification: for round `i = 0, 1, 2, ...`
visit the users of `order` in turn and take each user's `i`-th stream when it
exists. No user has more streams than there are fetched rows, so that many
rounds exhaust every user. -/
def roundRobin (order : List Nat) (userStreams : List StreamData) : List StreamData :=
  (List.range userStreams.length).flatMap
    (fun i => order.filterMap (fun u => (streamsOf userStreams u)[i]?))

/-- The ids of the users that own at least one fetched row, ascending. -/
def ascendingUserIds (userStreams : List StreamData) : List Nat :=
  (List.range ((userStreams.map (fun s => s.user_id)).foldr max 0 + 1)).filter
    (fun u => userStreams.any (fun s => decide (s.user_id = u)))

/-- A sample `makeStreamSource` for concrete evaluations. -/
def sampleSource (obj : StreamData) : String :=
  obj.path.getD ""

/-- The fetched rows of the scenario of the specification: user A (id 1) with
streams a1, a2, a3 and user B (id 2) with stream b1. -/
def scenarioStreams : List StreamData :=
  [{ id := 1, user_id := 1, path := some "/media/a1.mp4", source := none },
   { id := 2, user_id := 1, path := some "/media/a2.mp4", source := none },
   { id := 3, user_id := 1, path := some "/media/a3.mp4", source := none },
   { id := 4, user_id := 2, path := some "/media/b1.mp4", source := none }]

/-- Two fetched rows whose user ids are no array indices, the larger id first. -/
def largeIdStreams : List StreamData :=
  [{ id := 30, user_id := 4294967296, path := some "/media/c.mp4", source := none },
   { id := 40, user_id := 4294967295, path := some "/media/d.mp4", source := none }]

/-- Two fetched rows, one of user 1 and one of user 2. -/
def twoUserStreams : List StreamData :=
  [{ id := 10, user_id := 1, path := some "/media/a.mp4", source := none },
   { id := 20, user_id := 2, path := some "/media/b.mp4", source := none }]

/-! ## `preview` -/

/-- What one call of `preview` did: the commands given to `exec`, the path
given to `fs.existsSync`, the path given to `res.sendFile`, the error given to
`next`, and the file system the call left behind. -/
structure PreviewResult (Disk : Type) where
  commands : List String
  checked : Option String
  sent : Option String
  error : Option HttpError
  disk : Disk

/-- The command line built for the transcoder: it reads `input` and writes `output`. -/
def ffmpegCommand (input output : String) : String :=
  "ffmpeg -ss 01:00:10 -y -i " ++ input ++ " -frames:v 1 -q:v 2 " ++ output

/-- The call `res.sendFile(fullPreviewPath)`: the file is served when it
exists; otherwise the error of the failed read, which carries status 404, goes
to `next`. -/
def sendFile {Disk : Type} (existsSync : Disk → String → Bool) (commands : List String)
    (fullPreviewPath : String) (disk : Disk) : PreviewResult Disk :=
  if existsSync disk fullPreviewPath then
    { commands := commands, checked := some fullPreviewPath, sent := some fullPreviewPath,
      error := none, disk := disk }
  else
    { commands := commands, checked := some fullPreviewPath, sent := none,
      error := some { message := "ENOENT: no such file or directory", status := some 404 },
      disk := disk }

/-- The handler `preview`. `changeExtension` (of `./miscellaneous`), `pathJoin`
(`path.join`), `PWD` (`process.env.PWD`), the file system test `existsSync` and
the process runner `exec` are arguments; `exec cmd disk` gives the file system
after the command and whether the command succeeded. `stream` is what
`getStreamById(id)` resolved to. -/
def preview {Disk : Type} (changeExtension : String → String → String)
    (pathJoin : String → String → String) (PWD : String)
    (existsSync : Disk → String → Bool) (exec : String → Disk → Disk × Bool)
    (stream : Option StreamRecord) (disk : Disk) : PreviewResult Disk :=
  match stream with
  | none =>
    { commands := [], checked := none, sent := none,
      error := some { message := "stream not found", status := none }, disk := disk }
  | some stream =>
    match stream.path with
    | none =>
      { commands := [], checked := none, sent := none,
        error := some { message := "stream path not found", status := none }, disk := disk }
    | some path =>
      if path.isEmpty then
        { commands := [], checked := none, sent := none,
          error := some { message := "stream path not found", status := none }, disk := disk }
      else
        let previewPath := changeExtension path "jpg"
        let fullPreviewPath := pathJoin PWD (previewPath.drop 1)
        if !existsSync disk fullPreviewPath then
          let execPath := ffmpegCommand path previewPath
          let ran := exec execPath disk
          if ran.2 then sendFile existsSync [execPath] fullPreviewPath ran.1
          else
            { commands := [execPath], checked := some fullPreviewPath, sent := none,
              error := some { message := "Command failed", status := none }, disk := ran.1 }
        else sendFile existsSync [] fullPreviewPath disk

/-- Modelled from the spec: `changeExtension` of `./miscellaneous`, which is not
among the sources. The artifact has the same base name and the given extension:
the text after the last dot is replaced. -/
def changeExtensionModel (path ext : String) : String :=
  String.mk ((path.toList.reverse.dropWhile (fun c => decide (c ≠ '.'))).reverse ++ ext.toList)

/-- The segments of a path: the text between its separators. -/
def splitPath (cs : List Char) : List (List Char) :=
  cs.foldr
    (fun c acc =>
      if c = '/' then [] :: acc
      else
        match acc with
        | [] => [[c]]
        | seg :: rest => (c :: seg) :: rest)
    [[]]

/-- Normal form of a list of segments: empty and `.` segments are dropped and a
`..` segment removes the segment before it. -/
def normalizeSegments (segs : List (List Char)) : List (List Char) :=
  (segs.foldl
    (fun stack seg =>
      if seg = [] ∨ seg = ['.'] then stack
      else if seg = ['.', '.'] then stack.drop 1
      else seg :: stack)
    []).reverse

/-- The absolute path with the given segments. -/
def renderAbsolute (segs : List (List Char)) : String :=
  match segs with
  | [] => "/"
  | _ => String.mk (segs.foldr (fun seg acc => '/' :: (seg ++ acc)) [])

/-- The library function `path.join(a, b)` for an absolute `a`: the two are
joined by a separator and the result is normalised. -/
def pathJoinModel (a b : String) : String :=
  renderAbsolute (normalizeSegments (splitPath (a.toList ++ '/' :: b.toList)))

/-- The file a path names for a process whose working directory is `cwd`
(absolute): an absolute path names itself, any other path is taken from `cwd`;
the result is normalised. -/
def resolvePath (cwd path : String) : String :=
  if path.toList.head? = some '/' then
    renderAbsolute (normalizeSegments (splitPath path.toList))
  else renderAbsolute (normalizeSegments (splitPath (cwd.toList ++ '/' :: path.toList)))

/-- A file system given by the list of the files that exist, each by its
normalised absolute path; `fs.existsSync` of a process in `cwd`. -/
def existsAt (cwd : String) (disk : List String) (path : String) : Bool :=
  decide (resolvePath cwd path ∈ disk)

/-- The last word of a command line. -/
def lastWord (cmd : String) : String :=
  String.mk ((cmd.toList.reverse.takeWhile (fun c => decide (c ≠ ' '))).reverse)

/-- Modelled from the spec: the Transcoder, an external tool that is not among
the sources. Given `(inputPath, outputPath, seekOffset)` it produces a
single-frame JPEG at `outputPath`, the last word of the command line; run by a
process in `cwd`, it creates the file that `outputPath` names there. -/
def transcoderModel (cwd : String) (cmd : String) (disk : List String) : List String × Bool :=
  (resolvePath cwd (lastWord cmd) :: disk, true)

/-! ## `sendStream`: properties -/

theorem rangeEnd_eq (start videoSize : Nat) :
    rangeEnd start videoSize = min ((start : Int) + 1000000) ((videoSize : Int) - 1) := by
  simp [rangeEnd, CHUNK_SIZE]

theorem startAt_closed (videoSize : Nat) :
    ∀ k, k ≤ (videoSize - 1) / 1000001 → startAt videoSize k = k * 1000001 := by
  intro k
  induction k with
  | zero => intro _; rfl
  | succ k ih =>
    intro hk
    have hk' : k ≤ (videoSize - 1) / 1000001 := by omega
    simp only [startAt, ih hk', rangeEnd_eq]
    omega

theorem digitChar_isDigit (d : Nat) (h : d < 10) : (Nat.digitChar d).isDigit = true := by
  interval_cases d <;> decide

theorem digitChar_value (d : Nat) (h : d < 10) : (Nat.digitChar d).toNat - 48 = d := by
  interval_cases d <;> decide

theorem toDigitsCore_append (fuel : Nat) : ∀ (n : Nat) (ds : List Char),
    Nat.toDigitsCore 10 fuel n ds = Nat.toDigitsCore 10 fuel n [] ++ ds := by
  induction fuel with
  | zero => intro n ds; simp [Nat.toDigitsCore]
  | succ fuel ih =>
    intro n ds
    simp only [Nat.toDigitsCore]
    split
    · simp
    · rw [ih (n / 10) (Nat.digitChar (n % 10) :: ds), ih (n / 10) [Nat.digitChar (n % 10)]]
      simp

theorem toDigitsCore_all_digits (fuel : Nat) : ∀ (n : Nat),
    ∀ c ∈ Nat.toDigitsCore 10 fuel n [], c.isDigit = true := by
  induction fuel with
  | zero => intro n c hc; simp [Nat.toDigitsCore] at hc
  | succ fuel ih =>
    intro n c hc
    simp only [Nat.toDigitsCore] at hc
    split at hc
    · simp only [List.mem_singleton] at hc
      rw [hc]; exact digitChar_isDigit _ (Nat.mod_lt _ (by norm_num))
    · rw [toDigitsCore_append] at hc
      rcases List.mem_append.1 hc with h | h
      · exact ih _ c h
      · simp only [List.mem_singleton] at h
        rw [h]; exact digitChar_isDigit _ (Nat.mod_lt _ (by norm_num))

theorem numberOfDigits_append (l : List Char) (c : Char) :
    numberOfDigits (l ++ [c]) = 10 * numberOfDigits l + (c.toNat - 48) := by
  simp [numberOfDigits, List.foldl_append]

theorem numberOfDigits_toDigitsCore (fuel : Nat) : ∀ (n : Nat), n < fuel →
    numberOfDigits (Nat.toDigitsCore 10 fuel n []) = n := by
  induction fuel with
  | zero => intro n h; omega
  | succ fuel ih =>
    intro n hn
    simp only [Nat.toDigitsCore]
    split
    · rename_i h0
      have hv := digitChar_value (n % 10) (Nat.mod_lt _ (by norm_num))
      simp only [numberOfDigits, List.foldl_cons, List.foldl_nil, hv]
      omega
    · rename_i h0
      rw [toDigitsCore_append, numberOfDigits_append, ih (n / 10) (by omega),
        digitChar_value (n % 10) (Nat.mod_lt _ (by norm_num))]
      omega

theorem rangeHeader_toList (start : Nat) :
    (rangeHeader start).toList =
      ['b', 'y', 't', 'e', 's', '='] ++ Nat.toDigits 10 start ++ ['-'] := by
  simp [rangeHeader, toString, Nat.repr, String.toList]
  rfl

theorem parseStart_rangeHeader (start : Nat) : parseStart (rangeHeader start) = start := by
  unfold parseStart stripNonDigits
  rw [rangeHeader_toList]
  have hall : ∀ c ∈ Nat.toDigits 10 start, c.isDigit = true :=
    toDigitsCore_all_digits _ _
  rw [List.filter_append, List.filter_append, List.filter_eq_self.2 hall]
  have h1 : List.filter Char.isDigit ['b', 'y', 't', 'e', 's', '='] = [] := by decide
  have h2 : List.filter Char.isDigit ['-'] = [] := by decide
  rw [h1, h2]
  simp only [List.nil_append, List.append_nil]
  exact numberOfDigits_toDigitsCore _ _ (Nat.lt_succ_self _)

theorem rangeHeader_nonempty (start : Nat) : (rangeHeader start).isEmpty = false := by
  cases h : (rangeHeader start).isEmpty with
  | false => rfl
  | true =>
    have he := (String.isEmpty_iff _).1 h
    have hl := rangeHeader_toList start
    rw [he] at hl
    simp at hl

theorem startAt_lastRequest_closed (videoSize : Nat) :
    ∀ k, k ≤ lastRequest videoSize → startAt videoSize k = k * 1000001 := by
  intro k hk
  exact startAt_closed videoSize k (by simpa [lastRequest, CHUNK_SIZE] using hk)

/-- A request with a non-empty `Range` header for a stream whose file exists:
the handler writes the 206 head with the parsed start and the computed end. -/
theorem sendStream_head (statSize : String → Option Nat) (path range : String) (videoSize : Nat)
    (hsize : statSize path = some videoSize) (hrange : range.isEmpty = false) :
    (sendStream statSize (some { path := some path }) (some range)).head =
      some (206, { start := parseStart range, end_ := rangeEnd (parseStart range) videoSize,
                   videoSize := videoSize,
                   contentLength := rangeEnd (parseStart range) videoSize - parseStart range + 1 }) := by
  simp only [sendStream, hrange, hsize, Bool.false_eq_true, if_false]
  split <;> rfl

/-- When the computed interval is a valid one the read stream covers exactly it
and no error is raised. -/
theorem sendStream_read (statSize : String → Option Nat) (path range : String) (videoSize : Nat)
    (hsize : statSize path = some videoSize) (hrange : range.isEmpty = false)
    (h0 : 0 ≤ rangeEnd (parseStart range) videoSize)
    (hle : (parseStart range : Int) ≤ rangeEnd (parseStart range) videoSize) :
    (sendStream statSize (some { path := some path }) (some range)).read =
      some (parseStart range, rangeEnd (parseStart range) videoSize) ∧
    (sendStream statSize (some { path := some path }) (some range)).error = none := by
  simp [sendStream, hrange, hsize, h0, hle]

/-- The whole answer to a request with a non-empty `Range` header whose
computed interval is a valid one. -/
theorem sendStream_partial (statSize : String → Option Nat) (path range : String)
    (videoSize : Nat) (hsize : statSize path = some videoSize) (hrange : range.isEmpty = false)
    (h0 : 0 ≤ rangeEnd (parseStart range) videoSize)
    (hle : (parseStart range : Int) ≤ rangeEnd (parseStart range) videoSize) :
    sendStream statSize (some { path := some path }) (some range) =
      { head := some (206, { start := parseStart range,
                             end_ := rangeEnd (parseStart range) videoSize,
                             videoSize := videoSize,
                             contentLength :=
                               rangeEnd (parseStart range) videoSize - parseStart range + 1 }),
        read := some (parseStart range, rangeEnd (parseStart range) videoSize),
        error := none } := by
  simp [sendStream, hrange, hsize, h0, hle]

/-- For a start offset inside the file the interval is well formed:
`start ≤ end < videoSize`, and it holds at most `CHUNK_SIZE + 1` bytes. -/
theorem rangeEnd_bounds (start videoSize : Nat) (h : start < videoSize) :
    (start : Int) ≤ rangeEnd start videoSize ∧ rangeEnd start videoSize < videoSize ∧
      rangeEnd start videoSize - start + 1 ≤ (CHUNK_SIZE : Int) + 1 := by
  rw [rangeEnd_eq]
  simp only [CHUNK_SIZE]
  omega

/-- C1 (the code at the scenario of the specification). For `Range: bytes=500-`
on a 2,000,000-byte file `sendStream` computes the end offset
`min(start + CHUNK_SIZE, videoSize - 1) = 1000500`: the head carries
`Content-Range: bytes 500-1000500/2000000` and `Content-Length: 1000001`, one
byte more than `CHUNK_SIZE`. -/
theorem sendStream_range_500_of_2000000 :
    sendStream (constSize 2000000) (some { path := some "/media/rec.mp4" })
        (some "bytes=500-") =
      { head := some (206, { start := 500, end_ := 1000500, videoSize := 2000000,
                             contentLength := 1000001 }),
        read := some (500, 1000500), error := none } ∧
    contentRange { start := 500, end_ := 1000500, videoSize := 2000000,
                   contentLength := 1000001 } = "bytes 500-1000500/2000000" ∧
    rangeEnd 500 2000000 ≠ min (500 + (CHUNK_SIZE : Int) - 1) (2000000 - 1) ∧
    ¬ (rangeEnd 500 2000000 - 500 + 1 ≤ (CHUNK_SIZE : Int)) := by
  decide

/-- C5. For every file size `videoSize ≥ 1`, let the client send
`Range: bytes=<start_k>-` with `start_0 = 0` and `start_(k+1) = end_k + 1`.
Request number `lastRequest videoSize` ends at `videoSize - 1` and no earlier
request does. Each request `k` up to there is answered by `sendStream` with the
206 head carrying `start_k`, `end_k` and the file size and with a read of
exactly `[start_k, end_k]`, a non-empty interval; and every byte
`b < videoSize` lies in exactly one of these intervals, so they are pairwise
disjoint and cover the file. -/
theorem successive_ranges_cover (videoSize : Nat) (h : 1 ≤ videoSize) :
    rangeEnd (startAt videoSize (lastRequest videoSize)) videoSize = (videoSize : Int) - 1 ∧
    (∀ k, k < lastRequest videoSize →
      rangeEnd (startAt videoSize k) videoSize < (videoSize : Int) - 1) ∧
    (∀ k, k ≤ lastRequest videoSize →
      ∀ (statSize : String → Option Nat) (path : String), statSize path = some videoSize →
        sendStream statSize (some { path := some path })
            (some (rangeHeader (startAt videoSize k))) =
          { head := some (206, { start := startAt videoSize k,
                                 end_ := rangeEnd (startAt videoSize k) videoSize,
                                 videoSize := videoSize,
                                 contentLength :=
                                   rangeEnd (startAt videoSize k) videoSize -
                                     startAt videoSize k + 1 }),
            read := some (startAt videoSize k, rangeEnd (startAt videoSize k) videoSize),
            error := none } ∧
        (startAt videoSize k : Int) ≤ rangeEnd (startAt videoSize k) videoSize) ∧
    (∀ b, b < videoSize →
      ∃ k, (k ≤ lastRequest videoSize ∧ (startAt videoSize k : Int) ≤ (b : Int) ∧
            (b : Int) ≤ rangeEnd (startAt videoSize k) videoSize) ∧
        ∀ j, j ≤ lastRequest videoSize → (startAt videoSize j : Int) ≤ (b : Int) →
            (b : Int) ≤ rangeEnd (startAt videoSize j) videoSize → j = k) := by
  have hlast : lastRequest videoSize = (videoSize - 1) / 1000001 := by
    simp [lastRequest, CHUNK_SIZE]
  refine ⟨?_, ?_, ?_, ?_⟩
  · rw [startAt_lastRequest_closed videoSize _ le_rfl, rangeEnd_eq, hlast]; omega
  · intro k hk
    rw [startAt_lastRequest_closed videoSize k (by omega), rangeEnd_eq]
    rw [hlast] at hk
    omega
  · intro k hk statSize path hsize
    have hle : (startAt videoSize k : Int) ≤ rangeEnd (startAt videoSize k) videoSize := by
      rw [startAt_lastRequest_closed videoSize k hk, rangeEnd_eq]
      rw [hlast] at hk
      omega
    have h0 : 0 ≤ rangeEnd (startAt videoSize k) videoSize := by
      rw [rangeEnd_eq]; omega
    refine ⟨?_, hle⟩
    have hp := parseStart_rangeHeader (startAt videoSize k)
    have hs := sendStream_partial statSize path (rangeHeader (startAt videoSize k)) videoSize
      hsize (rangeHeader_nonempty _) (by rw [hp]; exact h0) (by rw [hp]; exact hle)
    rw [hp] at hs
    exact hs
  · intro b hb
    have hbn : b / 1000001 ≤ lastRequest videoSize := by
      rw [hlast]; exact Nat.div_le_div_right (by omega)
    refine ⟨b / 1000001, ⟨hbn, ?_, ?_⟩, ?_⟩
    · rw [startAt_lastRequest_closed videoSize _ hbn]; omega
    · rw [startAt_lastRequest_closed videoSize _ hbn, rangeEnd_eq]; omega
    · intro j hj hs he
      rw [startAt_lastRequest_closed videoSize j hj] at hs he
      rw [rangeEnd_eq] at he
      rw [hlast] at hj
      omega

/-- C5 at a 2,500,000-byte file: the third request, `Range: bytes=2000002-`,
is the last one; the handler answers it with `bytes 2000002-2499999/2500000`
and a read of these 499,998 bytes. -/
theorem successive_ranges_cover_witness :
    1 ≤ 2500000 ∧ lastRequest 2500000 = 2 ∧
      rangeHeader (startAt 2500000 2) = "bytes=2000002-" ∧
      sendStream (constSize 2500000) (some { path := some "/media/rec.mp4" })
          (some "bytes=2000002-") =
        { head := some (206, { start := 2000002, end_ := 2499999, videoSize := 2500000,
                               contentLength := 499998 }),
          read := some (2000002, 2499999), error := none } := by
  have hthm := ((successive_ranges_cover 2500000 (by decide)).2.2.1 2 (by decide)
    (constSize 2500000) "/media/rec.mp4" rfl).1
  have hh : rangeHeader (startAt 2500000 2) = "bytes=2000002-" := by decide
  rw [hh] at hthm
  exact ⟨by decide, by decide, hh, hthm.trans (by decide)⟩

/-- C6 as stated fails: without a `Range` header and with a stream id the store
does not know, the handler raises `stream not found`, which carries no status,
and not the 400 error. -/
theorem sendStream_no_range_unknown_stream :
    sendStream (constSize 2000000) none none =
        SendStreamResult.failed { message := "stream not found", status := none } ∧
      (sendStream (constSize 2000000) none none).error.bind (fun e => e.status) ≠ some 400 := by
  decide

/-- C6, amended. When the store knows the stream, a request without a `Range`
header (absent or empty) fails with the error of status 400; and whatever the
stream lookup gave, a request without a `Range` header writes no 206 head and
opens no read of the file. -/
theorem sendStream_no_range_known_stream (statSize : String → Option Nat)
    (stream : StreamRecord) (lookup : Option StreamRecord) :
    sendStream statSize (some stream) none =
        SendStreamResult.failed { message := "Requires Range header", status := some 400 } ∧
      sendStream statSize (some stream) (some "") =
        SendStreamResult.failed { message := "Requires Range header", status := some 400 } ∧
      (sendStream statSize lookup none).head = none ∧
      (sendStream statSize lookup none).read = none := by
  refine ⟨rfl, rfl, ?_, ?_⟩ <;> cases lookup <;> rfl

/-- C7 (the code at the failing inputs). For a stream id the store does not
know the error given to `next` is `stream not found` without a status, and for
a stream without a recording path it is the error of `fs.statSync`, again
without a status; neither carries 404. No 206 head is written. -/
theorem sendStream_missing_stream_no_status :
    sendStream (constSize 2000000) none (some "bytes=0-") =
        SendStreamResult.failed { message := "stream not found", status := none } ∧
      sendStream (constSize 2000000) (some { path := none }) (some "bytes=0-") =
        SendStreamResult.failed
          { message := "The path argument must be of type string", status := none } := by
  decide

/-- C8 (the code at the failing input). For `Range: bytes=3000000-` on a
2,000,000-byte file the handler writes the 206 head with start `3000000` and
end `1999999`, so `start ≤ end` fails and `Content-Length` is negative; the
read of the file is then rejected. -/
theorem sendStream_start_beyond_file :
    sendStream (constSize 2000000) (some { path := some "/media/rec.mp4" })
        (some "bytes=3000000-") =
      { head := some (206, { start := 3000000, end_ := 1999999, videoSize := 2000000,
                             contentLength := -1000000 }),
        read := none,
        error := some { message := "The value of start is out of range", status := none } } ∧
    contentRange { start := 3000000, end_ := 1999999, videoSize := 2000000,
                   contentLength := -1000000 } = "bytes 3000000-1999999/2000000" ∧
    ¬ ((3000000 : Int) ≤ rangeEnd 3000000 2000000) := by
  decide

/-! ## `streamsSelection`: the grouping object, the loop and the round-robin sequence -/

/-! ### The grouping object -/

theorem jsGet_jsSet_self {α : Type} (o : JsObject α) (k : Nat) (v : α) :
    jsGet (jsSet o k v) k = some v := by
  induction o with
  | nil => simp [jsSet, jsGet]
  | cons p rest ih =>
    obtain ⟨k', v'⟩ := p
    unfold jsSet
    by_cases h1 : k = k'
    · simp [jsGet, h1]
    · have h3 : ¬ k' = k := fun h => h1 h.symm
      simp only [h1, if_false]
      split
      · simp [jsGet]
      · simp [jsGet, h3, ih]

theorem jsGet_jsSet_ne {α : Type} (o : JsObject α) (k j : Nat) (v : α) (h : j ≠ k) :
    jsGet (jsSet o k v) j = jsGet o j := by
  have h3 : ¬ k = j := fun e => h e.symm
  induction o with
  | nil => simp [jsSet, jsGet, h3]
  | cons p rest ih =>
    obtain ⟨k', v'⟩ := p
    unfold jsSet
    by_cases h1 : k = k'
    · subst h1
      simp [jsGet, h3]
    · simp only [h1, if_false]
      split
      · simp [jsGet, h3]
      · by_cases h4 : k' = j
        · simp [jsGet, h4]
        · simp [jsGet, h4, ih]

theorem mem_objectKeys_jsSet {α : Type} (o : JsObject α) (k j : Nat) (v : α) :
    j ∈ objectKeys (jsSet o k v) ↔ j = k ∨ j ∈ objectKeys o := by
  induction o with
  | nil => simp [jsSet, objectKeys]
  | cons p rest ih =>
    obtain ⟨k', v'⟩ := p
    simp only [objectKeys] at ih
    unfold jsSet
    by_cases h1 : k = k'
    · subst h1
      simp [objectKeys]
    · simp only [h1, if_false]
      split
      · simp [objectKeys]
      · simp [objectKeys, ih]
        tauto

theorem keyOrder_objectKeys_jsSet {α : Type} (o : JsObject α) (k : Nat) (v : α)
    (h : (objectKeys o).Pairwise KeyOrder) :
    (objectKeys (jsSet o k v)).Pairwise KeyOrder := by
  induction o with
  | nil => simp [jsSet, objectKeys]
  | cons p rest ih =>
    obtain ⟨k', v'⟩ := p
    have hh : (∀ a ∈ objectKeys rest, KeyOrder k' a) ∧ (objectKeys rest).Pairwise KeyOrder := by
      simpa [objectKeys] using h
    unfold jsSet
    by_cases h1 : k = k'
    · subst h1
      simpa [objectKeys] using h
    · simp only [h1, if_false]
      split
      · rename_i hc
        have hc' : isArrayIndex k = true ∧ (isArrayIndex k' = false ∨ k < k') := by
          simpa using hc
        have hkeys : objectKeys ((k, v) :: (k', v') :: rest) = k :: objectKeys ((k', v') :: rest) := by
          simp [objectKeys]
        rw [hkeys]
        refine List.Pairwise.cons ?_ h
        intro a ha
        have hmem : a = k' ∨ a ∈ objectKeys rest := by simpa [objectKeys] using ha
        rcases hmem with rfl | ha
        · refine ⟨h1, fun hidx => ⟨hc'.1, ?_⟩⟩
          rcases hc'.2 with hf | hlt
          · rw [hidx] at hf; cases hf
          · exact hlt
        · obtain ⟨hne, himp⟩ := hh.1 a ha
          refine ⟨?_, fun hidx => ⟨hc'.1, ?_⟩⟩
          · intro hka
            subst hka
            by_cases hidx : isArrayIndex k = true
            · have := himp hidx
              rcases hc'.2 with hf | hlt
              · rw [this.1] at hf; cases hf
              · omega
            · exact hidx hc'.1
          · have := himp hidx
            rcases hc'.2 with hf | hlt
            · rw [this.1] at hf; cases hf
            · omega
      · rename_i hc
        have hc' : isArrayIndex k = true → isArrayIndex k' = true ∧ ¬ k < k' := by
          intro hk
          have : ¬ (isArrayIndex k = true ∧ (isArrayIndex k' = false ∨ k < k')) := by
            simpa using hc
          constructor
          · cases hk' : isArrayIndex k' with
            | true => rfl
            | false => exact absurd ⟨hk, Or.inl hk'⟩ this
          · intro hlt
            exact this ⟨hk, Or.inr hlt⟩
        have hkeys : objectKeys ((k', v') :: jsSet rest k v) = k' :: objectKeys (jsSet rest k v) := by
          simp [objectKeys]
        rw [hkeys]
        refine List.Pairwise.cons ?_ (ih hh.2)
        intro a ha
        rcases (mem_objectKeys_jsSet rest k a v).1 ha with rfl | ha
        · refine ⟨fun e => h1 e.symm, fun hidx => ?_⟩
          have := hc' hidx
          exact ⟨this.1, by omega⟩
        · exact hh.1 a ha

theorem jsGet_eq_none_iff {α : Type} (o : JsObject α) (k : Nat) :
    jsGet o k = none ↔ k ∉ objectKeys o := by
  induction o with
  | nil => simp [jsGet, objectKeys]
  | cons p rest ih =>
    obtain ⟨k', v'⟩ := p
    simp only [objectKeys] at ih
    by_cases h : k' = k
    · simp [jsGet, objectKeys, h]
    · have h' : ¬ k = k' := fun e => h e.symm
      simp [jsGet, objectKeys, h, h', ih]

theorem jsGet_groupStep (struct : JsObject (List StreamData)) (el : StreamData) (k : Nat) :
    (jsGet (groupStep struct el) k).getD [] =
      (jsGet struct k).getD [] ++ (if el.user_id = k then [el] else []) := by
  unfold groupStep
  by_cases hk : k = el.user_id
  · subst hk
    simp only [jsGet_jsSet_self, Option.getD_some, if_true]
    cases hg : jsGet struct el.user_id with
    | none => simp [jsGet_jsSet_self]
    | some arr => simp [hg]
  · have hk' : ¬ el.user_id = k := fun e => hk e.symm
    rw [jsGet_jsSet_ne _ _ _ _ hk]
    simp only [hk', if_false, List.append_nil]
    split
    · rw [jsGet_jsSet_ne _ _ _ _ hk]
    · rfl

theorem mem_objectKeys_groupStep (struct : JsObject (List StreamData)) (el : StreamData)
    (k : Nat) :
    k ∈ objectKeys (groupStep struct el) ↔ k = el.user_id ∨ k ∈ objectKeys struct := by
  unfold groupStep
  rw [mem_objectKeys_jsSet]
  split
  · rw [mem_objectKeys_jsSet]; tauto
  · rfl

theorem keyOrder_objectKeys_groupStep (struct : JsObject (List StreamData)) (el : StreamData)
    (h : (objectKeys struct).Pairwise KeyOrder) :
    (objectKeys (groupStep struct el)).Pairwise KeyOrder := by
  unfold groupStep
  apply keyOrder_objectKeys_jsSet
  split
  · exact keyOrder_objectKeys_jsSet _ _ _ h
  · exact h

theorem jsGet_foldl_groupStep (userStreams : List StreamData) :
    ∀ (acc : JsObject (List StreamData)) (k : Nat),
      (jsGet (userStreams.foldl groupStep acc) k).getD [] =
        (jsGet acc k).getD [] ++ streamsOf userStreams k := by
  induction userStreams with
  | nil => intro acc k; simp [streamsOf]
  | cons el rest ih =>
    intro acc k
    rw [List.foldl_cons, ih, jsGet_groupStep]
    by_cases h : el.user_id = k
    · simp [streamsOf, h]
    · simp [streamsOf, h]

theorem mem_objectKeys_foldl_groupStep (userStreams : List StreamData) :
    ∀ (acc : JsObject (List StreamData)) (k : Nat),
      k ∈ objectKeys (userStreams.foldl groupStep acc) ↔
        k ∈ objectKeys acc ∨ ∃ s ∈ userStreams, s.user_id = k := by
  induction userStreams with
  | nil => intro acc k; simp
  | cons el rest ih =>
    intro acc k
    rw [List.foldl_cons, ih, mem_objectKeys_groupStep]
    constructor
    · rintro ((h | h) | ⟨s, hs, h⟩)
      · exact Or.inr ⟨el, List.mem_cons_self _ _, h.symm⟩
      · exact Or.inl h
      · exact Or.inr ⟨s, List.mem_cons_of_mem _ hs, h⟩
    · rintro (h | ⟨s, hs, h⟩)
      · exact Or.inl (Or.inr h)
      · rcases List.mem_cons.1 hs with rfl | hs
        · exact Or.inl (Or.inl h.symm)
        · exact Or.inr ⟨s, hs, h⟩

theorem keyOrder_objectKeys_foldl_groupStep (userStreams : List StreamData) :
    ∀ (acc : JsObject (List StreamData)), (objectKeys acc).Pairwise KeyOrder →
      (objectKeys (userStreams.foldl groupStep acc)).Pairwise KeyOrder := by
  induction userStreams with
  | nil => intro acc h; simpa using h
  | cons el rest ih =>
    intro acc h
    rw [List.foldl_cons]
    exact ih _ (keyOrder_objectKeys_groupStep _ _ h)

/-! ### One round and the round loop -/

/-- The items round `i` offers: each key's `i`-th grouped row, in key order. -/
theorem roundStep_lookup (struct : JsObject (List StreamData)) (el i : Nat) :
    (jsGet struct el).bind (fun arr => arr[i]?) = ((jsGet struct el).getD [])[i]? := by
  cases jsGet struct el <;> simp

theorem roundStep_eq (mk : StreamData → String) (struct : JsObject (List StreamData))
    (amount : Int) (i : Nat) (acc : List StreamData × Bool) (el : Nat) :
    roundStep mk struct amount i acc el =
      match ((jsGet struct el).getD [])[i]? with
      | some obj =>
        if (acc.1.length : Int) < amount then (acc.1 ++ [annotate mk obj], true) else acc
      | none => acc := by
  unfold roundStep
  rw [roundStep_lookup]

theorem foldl_roundStep (mk : StreamData → String) (struct : JsObject (List StreamData))
    (amount : Int) (i : Nat) (keys : List Nat) :
    ∀ (result : List StreamData) (added : Bool),
      keys.foldl (roundStep mk struct amount i) (result, added) =
        (result ++ ((keys.filterMap (fun k => ((jsGet struct k).getD [])[i]?)).take
            (amount.toNat - result.length)).map (annotate mk),
         added || (!(keys.filterMap (fun k => ((jsGet struct k).getD [])[i]?)).isEmpty &&
            decide ((result.length : Int) < amount))) := by
  induction keys with
  | nil => intro result added; simp
  | cons k ks ih =>
    intro result added
    rw [List.foldl_cons, roundStep_eq]
    cases hk : ((jsGet struct k).getD [])[i]? with
    | none =>
      simp only [List.filterMap_cons, hk]
      exact ih result added
    | some obj =>
      simp only [List.filterMap_cons, hk]
      by_cases hlt : (result.length : Int) < amount
      · simp only [hlt, if_true]
        rw [ih]
        have h1 : amount.toNat - result.length = (amount.toNat - (result.length + 1)) + 1 := by
          omega
        rw [h1, List.take_succ_cons]
        simp
      · simp only [hlt, if_false]
        rw [ih]
        have h1 : amount.toNat - result.length = 0 := by omega
        simp [h1, hlt]

theorem roundLoop_eq (mk : StreamData → String) (struct : JsObject (List StreamData))
    (keys : List Nat) (amount : Int) (m : Nat)
    (hm : ∀ j, m ≤ j → keys.filterMap (fun k => ((jsGet struct k).getD [])[j]?) = []) :
    ∀ (fuel i : Nat) (result : List StreamData), m - i < fuel →
      roundLoop mk struct keys amount fuel i result =
        some (result ++ (((List.range' i (m - i)).flatMap
          (fun j => keys.filterMap (fun k => ((jsGet struct k).getD [])[j]?))).take
            (amount.toNat - result.length)).map (annotate mk)) := by
  intro fuel
  induction fuel with
  | zero => intro i result h; omega
  | succ fuel ih =>
    intro i result hfuel
    have hmono : ∀ j : Nat, keys.filterMap (fun k => ((jsGet struct k).getD [])[j]?) = [] →
        ∀ j' : Nat, j ≤ j' → keys.filterMap (fun k => ((jsGet struct k).getD [])[j']?) = [] := by
      intro j hj j' hjj'
      rw [List.filterMap_eq_nil_iff] at hj ⊢
      intro k hk
      have hlen : ((jsGet struct k).getD []).length ≤ j := by
        have h0 : ((jsGet struct k).getD [])[j]? = none := hj k hk
        simpa using h0
      show ((jsGet struct k).getD [])[j']? = none
      exact List.getElem?_eq_none (by omega)
    unfold roundLoop
    simp only [foldl_roundStep]
    by_cases hi : m ≤ i
    · have hrow := hm i hi
      have hz : m - i = 0 := by omega
      simp [hrow, hz]
    · have hsplit : List.range' i (m - i) = i :: List.range' (i + 1) (m - (i + 1)) := by
        have : m - i = (m - (i + 1)) + 1 := by omega
        rw [this, List.range'_succ]
      rw [hsplit, List.flatMap_cons]
      generalize hrow : keys.filterMap (fun k => ((jsGet struct k).getD [])[i]?) = row
      by_cases hempty : row = []
      · have hrest : (List.range' (i + 1) (m - (i + 1))).flatMap
            (fun j => keys.filterMap (fun k => ((jsGet struct k).getD [])[j]?)) = [] := by
          rw [List.flatMap_eq_nil_iff]
          intro j hj
          rw [List.mem_range'_1] at hj
          exact hmono i (by rw [hrow]; exact hempty) j (by omega)
        simp [hempty, hrest]
      · by_cases hlt : (result.length : Int) < amount
        · have hne : row.isEmpty = false := by
            cases row with
            | nil => exact absurd rfl hempty
            | cons _ _ => rfl
          by_cases hfull : amount ≤ ((result ++ (row.take (amount.toNat - result.length)).map
              (annotate mk)).length : Int)
          · simp only [hne, hlt, hfull, Bool.false_or, Bool.not_false, Bool.true_and,
              decide_True, Bool.not_true, Bool.or_true, Bool.false_or, if_true]
            have hlen : amount.toNat - result.length ≤ row.length := by
              simp only [List.length_append, List.length_map, List.length_take] at hfull
              omega
            rw [List.take_append_of_le_length hlen]
          · simp only [hne, hlt, hfull, Bool.false_or, Bool.not_false, Bool.true_and,
              decide_True, decide_False, Bool.not_true, Bool.or_false, if_false]
            have hlen : row.length < amount.toNat - result.length := by
              simp only [List.length_append, List.length_map, List.length_take] at hfull
              omega
            rw [List.take_of_length_le (le_of_lt hlen)]
            rw [ih (i + 1) (result ++ row.map (annotate mk)) (by omega)]
            rw [List.take_append_eq_append_take, List.take_of_length_le (le_of_lt hlen)]
            simp [List.append_assoc, Nat.sub_sub]
        · have hz : amount.toNat - result.length = 0 := by omega
          simp [hlt, hz]

/-! ### The grouping object against the fetched rows -/

theorem jsGet_struct (userStreams : List StreamData) (k : Nat) :
    (jsGet (userStreams.foldl groupStep []) k).getD [] = streamsOf userStreams k := by
  rw [jsGet_foldl_groupStep]
  simp [jsGet]

theorem user_id_le_foldr_max (userStreams : List StreamData) :
    ∀ s ∈ userStreams, s.user_id ≤ (userStreams.map (fun s => s.user_id)).foldr max 0 := by
  induction userStreams with
  | nil => intro s hs; cases hs
  | cons x rest ih =>
    intro s hs
    simp only [List.map_cons, List.foldr_cons]
    rcases List.mem_cons.1 hs with rfl | hs
    · exact le_max_left _ _
    · exact le_trans (ih s hs) (le_max_right _ _)

theorem mem_ascendingUserIds (userStreams : List StreamData) (k : Nat) :
    k ∈ ascendingUserIds userStreams ↔ ∃ s ∈ userStreams, s.user_id = k := by
  unfold ascendingUserIds
  rw [List.mem_filter, List.mem_range, List.any_eq_true]
  constructor
  · rintro ⟨_, s, hs, hk⟩
    exact ⟨s, hs, by simpa using hk⟩
  · rintro ⟨s, hs, hk⟩
    refine ⟨?_, s, hs, by simpa using hk⟩
    have := user_id_le_foldr_max userStreams s hs
    omega

theorem sorted_ascendingUserIds (userStreams : List StreamData) :
    (ascendingUserIds userStreams).Pairwise (fun a b => a < b) :=
  List.Pairwise.filter _ (List.pairwise_lt_range _)

theorem nodup_ascendingUserIds (userStreams : List StreamData) :
    (ascendingUserIds userStreams).Nodup :=
  List.Pairwise.imp (fun h => Nat.ne_of_lt h) (sorted_ascendingUserIds userStreams)

theorem keyOrder_selectionOrder (userStreams : List StreamData) :
    (selectionOrder userStreams).Pairwise KeyOrder :=
  keyOrder_objectKeys_foldl_groupStep userStreams [] (by simp [objectKeys])

theorem nodup_selectionOrder (userStreams : List StreamData) :
    (selectionOrder userStreams).Nodup :=
  List.Pairwise.imp (fun h => h.1) (keyOrder_selectionOrder userStreams)

theorem mem_selectionOrder (userStreams : List StreamData) (k : Nat) :
    k ∈ selectionOrder userStreams ↔ ∃ s ∈ userStreams, s.user_id = k := by
  unfold selectionOrder
  rw [mem_objectKeys_foldl_groupStep]
  simp [objectKeys]

/-- When every user id is an array index the handler visits the users in
ascending order of their ids. -/
theorem selectionOrder_eq_ascending (userStreams : List StreamData)
    (hid : ∀ s ∈ userStreams, s.user_id < 4294967295) :
    selectionOrder userStreams = ascendingUserIds userStreams := by
  have hs1 : (selectionOrder userStreams).Pairwise (fun a b => a < b) := by
    refine List.Pairwise.imp_of_mem ?_ (keyOrder_selectionOrder userStreams)
    intro a b _ hb hab
    obtain ⟨s, hs, hsb⟩ := (mem_selectionOrder userStreams b).1 hb
    have hidx : isArrayIndex b = true := by
      rw [← hsb]
      simpa [isArrayIndex] using hid s hs
    exact (hab.2 hidx).2
  have hs2 := sorted_ascendingUserIds userStreams
  have hperm : (selectionOrder userStreams).Perm (ascendingUserIds userStreams) := by
    rw [List.perm_ext_iff_of_nodup (nodup_selectionOrder userStreams)
      (nodup_ascendingUserIds userStreams)]
    intro k
    rw [mem_selectionOrder, mem_ascendingUserIds]
  exact List.eq_of_perm_of_sorted hperm hs1 hs2

theorem streamsOf_length_le (userStreams : List StreamData) (u : Nat) :
    (streamsOf userStreams u).length ≤ userStreams.length :=
  List.length_filter_le _ _

/-- With enough fuel the handler answers the first `amount` items of the
round-robin sequence over the keys of the grouping object. -/
theorem streamsSelection_eq_roundRobin (extra : Nat) (mk : StreamData → String) (amount : Int)
    (u : Nat) (us : List Nat) (userStreams : List StreamData) :
    streamsSelection (userStreams.length + 1 + extra) mk amount (some (u :: us)) userStreams =
      some (((roundRobin (selectionOrder userStreams) userStreams).take amount.toNat).map
        (annotate mk)) := by
  unfold streamsSelection
  simp only
  rw [roundLoop_eq mk _ _ amount userStreams.length ?_ _ 0 [] (by omega)]
  · simp only [jsGet_struct, Nat.sub_zero, List.nil_append, List.length_nil,
      ← List.range_eq_range']
    rfl
  · intro j hj
    rw [List.filterMap_eq_nil_iff]
    intro k _
    show ((jsGet (userStreams.foldl groupStep []) k).getD [])[j]? = none
    rw [jsGet_struct]
    exact List.getElem?_eq_none (le_trans (streamsOf_length_le userStreams k) hj)

/-! ### The round-robin sequence -/

theorem user_id_of_getElem? (userStreams : List StreamData) (k i : Nat) (x : StreamData)
    (h : (streamsOf userStreams k)[i]? = some x) : x.user_id = k := by
  have hx : x ∈ streamsOf userStreams k := List.getElem?_mem h
  unfold streamsOf at hx
  simpa using (List.mem_filter.1 hx).2

theorem filter_row (userStreams : List StreamData) (i u : Nat) (keys : List Nat)
    (hnd : keys.Nodup) :
    (keys.filterMap (fun k => (streamsOf userStreams k)[i]?)).filter
        (fun s => decide (s.user_id = u)) =
      if u ∈ keys then ((streamsOf userStreams u)[i]?).toList else [] := by
  induction keys with
  | nil => simp
  | cons k ks ih =>
    have hnd' := List.nodup_cons.1 hnd
    rw [List.filterMap_cons]
    cases hk : (streamsOf userStreams k)[i]? with
    | none =>
      simp only
      rw [ih hnd'.2]
      by_cases hu : u = k
      · subst hu
        simp [hk, hnd'.1]
      · simp [hu]
    | some x =>
      simp only
      have hx := user_id_of_getElem? userStreams k i x hk
      rw [List.filter_cons, ih hnd'.2]
      by_cases hu : u = k
      · subst hu
        simp [hk, hnd'.1, hx]
      · have hxu : ¬ x.user_id = u := by rw [hx]; exact fun e => hu e.symm
        simp [hu, hxu]

theorem flatMap_range_getElem? {α : Type} (l : List α) (m : Nat) :
    (List.range m).flatMap (fun i => (l[i]?).toList) = l.take m := by
  induction m with
  | zero => simp
  | succ m ih =>
    rw [List.range_succ, List.flatMap_append, ih, List.take_succ]
    simp

theorem filter_flatMap_rows (userStreams : List StreamData) (u : Nat) (keys : List Nat)
    (hnd : keys.Nodup) (m : Nat) :
    ((List.range m).flatMap
        (fun i => keys.filterMap (fun k => (streamsOf userStreams k)[i]?))).filter
        (fun s => decide (s.user_id = u)) =
      if u ∈ keys then (streamsOf userStreams u).take m else [] := by
  rw [List.filter_flatMap]
  simp only [filter_row userStreams _ u keys hnd]
  by_cases hu : u ∈ keys
  · simp only [hu, if_true]
    exact flatMap_range_getElem? _ m
  · simp [hu]

theorem streamsOf_eq_nil (userStreams : List StreamData) (u : Nat)
    (h : ¬ ∃ s ∈ userStreams, s.user_id = u) : streamsOf userStreams u = [] := by
  unfold streamsOf
  rw [List.filter_eq_nil_iff]
  intro s hs hsu
  exact h ⟨s, hs, by simpa using hsu⟩

theorem filter_roundRobin (userStreams : List StreamData) (u : Nat) :
    (roundRobin (selectionOrder userStreams) userStreams).filter
        (fun s => decide (s.user_id = u)) = streamsOf userStreams u := by
  unfold roundRobin
  rw [filter_flatMap_rows userStreams u _ (nodup_selectionOrder userStreams)]
  by_cases hu : u ∈ selectionOrder userStreams
  · simp only [hu, if_true]
    exact List.take_of_length_le (streamsOf_length_le userStreams u)
  · simp only [hu, if_false]
    rw [mem_selectionOrder] at hu
    exact (streamsOf_eq_nil userStreams u hu).symm

theorem roundRobin_perm (userStreams : List StreamData) :
    (roundRobin (selectionOrder userStreams) userStreams).Perm userStreams := by
  rw [List.perm_iff_count]
  intro a
  have h1 := List.count_filter (p := fun s : StreamData => decide (s.user_id = a.user_id))
    (a := a) (l := roundRobin (selectionOrder userStreams) userStreams) (by simp)
  have h2 := List.count_filter (p := fun s : StreamData => decide (s.user_id = a.user_id))
    (a := a) (l := userStreams) (by simp)
  rw [← h1, ← h2, filter_roundRobin]
  rfl

theorem filter_annotate (mk : StreamData → String) (l : List StreamData) (u : Nat) :
    (l.map (annotate mk)).filter (fun s => decide (s.user_id = u)) =
      (l.filter (fun s => decide (s.user_id = u))).map (annotate mk) := by
  rw [List.filter_map]
  rfl

/-! ### Prefixes of the round-robin sequence -/

theorem take_flatMap_range {α : Type} (row : Nat → List α) (m : Nat) :
    ∀ n : Nat, ∃ (j : Nat) (t : List α), t <+: row j ∧
      ((List.range m).flatMap row).take n = (List.range j).flatMap row ++ t := by
  induction m with
  | zero => intro n; exact ⟨0, [], List.nil_prefix, by simp⟩
  | succ m ih =>
    intro n
    rw [List.range_succ, List.flatMap_append, List.take_append_eq_append_take]
    by_cases hn : n ≤ ((List.range m).flatMap row).length
    · obtain ⟨j, t, ht, he⟩ := ih n
      refine ⟨j, t, ht, ?_⟩
      have hz : n - ((List.range m).flatMap row).length = 0 := by omega
      rw [hz, he]
      simp
    · refine ⟨m, (row m).take (n - ((List.range m).flatMap row).length),
        List.take_prefix _ _, ?_⟩
      rw [List.take_of_length_le (by omega)]
      simp

theorem length_toList_le_one {α : Type} (o : Option α) : o.toList.length ≤ 1 := by
  cases o <;> simp

/-- Shape of the per-user parts of a prefix of the round-robin sequence: some
number `j` of rounds is complete, and at most one further item per user is in. -/
theorem filter_take_roundRobin (userStreams : List StreamData) (n : Nat) :
    ∃ j : Nat, ∀ u : Nat,
      (((roundRobin (selectionOrder userStreams) userStreams).take n).filter
          (fun s => decide (s.user_id = u))).length ≤ j + 1 ∧
      min j (streamsOf userStreams u).length ≤
        (((roundRobin (selectionOrder userStreams) userStreams).take n).filter
          (fun s => decide (s.user_id = u))).length := by
  unfold roundRobin
  obtain ⟨j, t, ht, he⟩ := take_flatMap_range
    (fun i => (selectionOrder userStreams).filterMap
      (fun k => (streamsOf userStreams k)[i]?)) userStreams.length n
  refine ⟨j, fun u => ?_⟩
  rw [he, List.filter_append,
    filter_flatMap_rows userStreams u _ (nodup_selectionOrder userStreams), List.length_append]
  have htl : (t.filter (fun s => decide (s.user_id = u))).length ≤ 1 := by
    have hp := (List.IsPrefix.filter (fun s : StreamData => decide (s.user_id = u)) ht).length_le
    rw [filter_row userStreams j u _ (nodup_selectionOrder userStreams)] at hp
    split at hp
    · exact le_trans hp (length_toList_le_one _)
    · exact le_trans hp (by simp)
  by_cases hu : u ∈ selectionOrder userStreams
  · simp only [hu, if_true, List.length_take]
    omega
  · simp only [hu, if_false, List.length_nil]
    rw [mem_selectionOrder] at hu
    rw [streamsOf_eq_nil userStreams u hu]
    simp only [List.length_nil, Nat.zero_add, Nat.min_zero, Nat.zero_le, and_true]
    omega

theorem filter_take_roundRobin_initial (userStreams : List StreamData) (n u : Nat) :
    ((roundRobin (selectionOrder userStreams) userStreams).take n).filter
        (fun s => decide (s.user_id = u)) <+: streamsOf userStreams u := by
  have h := List.IsPrefix.filter (fun s : StreamData => decide (s.user_id = u))
    ( List.take_prefix n (roundRobin (selectionOrder userStreams) userStreams))
  rw [filter_roundRobin] at h
  exact h

theorem getElem?_of_initial {α : Type} (l₁ l₂ : List α) (h : l₁ <+: l₂) (i : Nat)
    (hi : i < l₁.length) : l₁[i]? = l₂[i]? := by
  obtain ⟨t, rfl⟩ := h
  rw [List.getElem?_append_left hi]

/-- The list the handler answers, for every shape of `users`. -/
theorem streamsSelection_eq (extra : Nat) (mk : StreamData → String) (amount : Int)
    (users : Option (List Nat)) (userStreams : List StreamData) :
    streamsSelection (userStreams.length + 1 + extra) mk amount users userStreams =
      some (if users = none ∨ users = some [] then []
        else ((roundRobin (selectionOrder userStreams) userStreams).take amount.toNat).map
          (annotate mk)) := by
  rcases users with _ | _ | ⟨u, us⟩
  · simp [streamsSelection]
  · simp [streamsSelection]
  · rw [streamsSelection_eq_roundRobin]
    simp

theorem selection_fair_core (mk : StreamData → String) (userStreams : List StreamData) (n : Nat)
    (u v i : Nat) (hi : 1 ≤ i)
    (hu : i < ((((roundRobin (selectionOrder userStreams) userStreams).take n).map
      (annotate mk)).filter (fun s => decide (s.user_id = u))).length) :
    ((((roundRobin (selectionOrder userStreams) userStreams).take n).map
        (annotate mk)).filter (fun s => decide (s.user_id = u)))[i]? =
      ((streamsOf userStreams u)[i]?).map (annotate mk) ∧
    (i - 1 < (streamsOf userStreams v).length →
      ((((roundRobin (selectionOrder userStreams) userStreams).take n).map
        (annotate mk)).filter (fun s => decide (s.user_id = v)))[i - 1]? =
      ((streamsOf userStreams v)[i - 1]?).map (annotate mk)) := by
  rw [filter_annotate, List.length_map] at hu
  obtain ⟨j, hj⟩ := filter_take_roundRobin userStreams n
  constructor
  · rw [filter_annotate, List.getElem?_map,
      getElem?_of_initial _ _ (filter_take_roundRobin_initial userStreams n u) i hu]
  · intro hv
    have h1 := (hj u).1
    have h2 := (hj v).2
    rw [filter_annotate, List.getElem?_map,
      getElem?_of_initial _ _ (filter_take_roundRobin_initial userStreams n v) (i - 1)
        (by omega)]

/-! ## `streamsSelection`: properties -/

/-- The scenario of the specification: users A (id 1, streams a1, a2, a3) and
B (id 2, stream b1) with `amount = 3` give `[a1, b1, a2]`. -/
theorem streamsSelection_scenario :
    streamsSelection 5 sampleSource 3 (some [1, 2]) scenarioStreams =
      some [{ id := 1, user_id := 1, path := some "/media/a1.mp4",
              source := some "/media/a1.mp4" },
            { id := 4, user_id := 2, path := some "/media/b1.mp4",
              source := some "/media/b1.mp4" },
            { id := 2, user_id := 1, path := some "/media/a2.mp4",
              source := some "/media/a2.mp4" }] := by
  decide

/-- C2 as stated fails: with the candidates ranked `[2, 1]`, one stream each
and `amount = 2`, the handler answers the stream of user 1 first, while the
round-robin sequence over the ranked order starts with the stream of user 2. -/
theorem streamsSelection_not_ranked_order :
    streamsSelection 3 sampleSource 2 (some [2, 1]) twoUserStreams =
      some [{ id := 10, user_id := 1, path := some "/media/a.mp4",
              source := some "/media/a.mp4" },
            { id := 20, user_id := 2, path := some "/media/b.mp4",
              source := some "/media/b.mp4" }] ∧
    ((roundRobin [2, 1] twoUserStreams).take 2).map (annotate sampleSource) =
      [{ id := 20, user_id := 2, path := some "/media/b.mp4",
         source := some "/media/b.mp4" },
       { id := 10, user_id := 1, path := some "/media/a.mp4",
         source := some "/media/a.mp4" }] ∧
    streamsSelection 3 sampleSource 2 (some [2, 1]) twoUserStreams ≠
      some (((roundRobin [2, 1] twoUserStreams).take 2).map (annotate sampleSource)) := by
  decide

/-- User ids that are no array indices are visited in the order in which their
first rows were fetched: id `4294967296` before id `4294967295`. -/
theorem streamsSelection_large_ids :
    selectionOrder largeIdStreams = [4294967296, 4294967295] ∧
    streamsSelection 3 sampleSource 2 (some [4294967296, 4294967295]) largeIdStreams =
      some [{ id := 30, user_id := 4294967296, path := some "/media/c.mp4",
              source := some "/media/c.mp4" },
            { id := 40, user_id := 4294967295, path := some "/media/d.mp4",
              source := some "/media/d.mp4" }] := by
  decide

/-- C2, amended. Let every user id be an array index (below `2 ^ 32 - 1`).
Allowed more rounds than there are fetched rows, the handler answers: the empty
list when the candidate list is null or empty; otherwise the first `amount`
elements of the round-robin sequence that, for round `i = 0, 1, 2, ...`, visits
the users owning a fetched row in ascending `user_id` order and takes each
user's `i`-th stream when it exists, each element with its `source` set. -/
theorem streamsSelection_round_robin (extra : Nat) (makeStreamSource : StreamData → String)
    (amount : Int) (users : Option (List Nat)) (userStreams : List StreamData)
    (hid : ∀ s ∈ userStreams, s.user_id < 4294967295) :
    streamsSelection (userStreams.length + 1 + extra) makeStreamSource amount users userStreams =
      some (if users = none ∨ users = some [] then []
        else ((roundRobin (ascendingUserIds userStreams) userStreams).take amount.toNat).map
          (annotate makeStreamSource)) := by
  rw [streamsSelection_eq, selectionOrder_eq_ascending userStreams hid]

/-- C2, amended, at the scenario of the specification, whose user ids 1 and 2
are array indices. -/
theorem streamsSelection_round_robin_witness :
    (∀ s ∈ scenarioStreams, s.user_id < 4294967295) ∧
      streamsSelection (scenarioStreams.length + 1 + 0) sampleSource 3 (some [1, 2])
          scenarioStreams =
        some (if (some [1, 2] : Option (List Nat)) = none ∨
              (some [1, 2] : Option (List Nat)) = some [] then []
          else ((roundRobin (ascendingUserIds scenarioStreams) scenarioStreams).take
            (3 : Int).toNat).map (annotate sampleSource)) :=
  ⟨by decide,
    streamsSelection_round_robin 0 sampleSource 3 (some [1, 2]) scenarioStreams (by decide)⟩

/-- C3. For a non-empty candidate list and `amount ≥ 0` the round loop breaks
within `userStreams.length + 1` rounds (any larger allowance gives the same
answer) and the answer has exactly `min(amount, userStreams.length)` elements. -/
theorem streamsSelection_length (extra : Nat) (makeStreamSource : StreamData → String)
    (amount : Int) (users : List Nat) (userStreams : List StreamData)
    (hne : users ≠ []) (h0 : 0 ≤ amount) :
    ∃ result,
      streamsSelection (userStreams.length + 1 + extra) makeStreamSource amount (some users)
          userStreams = some result ∧
        (result.length : Int) = min amount (userStreams.length : Int) ∧
        (result.length : Int) ≤ amount := by
  rw [streamsSelection_eq]
  refine ⟨_, rfl, ?_⟩
  have hlen := (roundRobin_perm userStreams).length_eq
  simp only [hne, reduceCtorEq, Option.some.injEq, or_self, if_false, List.length_map,
    List.length_take, hlen]
  omega

/-- C3 at the scenario of the specification: three of the four fetched streams. -/
theorem streamsSelection_length_witness :
    ∃ result,
      streamsSelection (scenarioStreams.length + 1 + 0) sampleSource 3 (some [1, 2])
          scenarioStreams = some result ∧
        (result.length : Int) = min 3 (scenarioStreams.length : Int) ∧
        (result.length : Int) ≤ 3 :=
  streamsSelection_length 0 sampleSource 3 [1, 2] scenarioStreams (by decide) (by decide)

/-- C4. The answer is fair. Let `i ≥ 1` be below the number of elements of
user `u` in the answer. Then the `i`-th element of `u` in the answer is the
item at position `i` of `u` in the fetched list, and for every user `v`
(ranked higher or not) with an item at position `i - 1` that item is the
`(i - 1)`-th element of `v` in the answer. In particular no user has two
elements in the answer while a user with a fetched stream has none. -/
theorem streamsSelection_fair (extra : Nat) (makeStreamSource : StreamData → String)
    (amount : Int) (users : Option (List Nat)) (userStreams : List StreamData) :
    ∃ result,
      streamsSelection (userStreams.length + 1 + extra) makeStreamSource amount users
          userStreams = some result ∧
        (∀ u v i : Nat, 1 ≤ i →
          i < (result.filter (fun s => decide (s.user_id = u))).length →
            (result.filter (fun s => decide (s.user_id = u)))[i]? =
                ((streamsOf userStreams u)[i]?).map (annotate makeStreamSource) ∧
              (i - 1 < (streamsOf userStreams v).length →
                (result.filter (fun s => decide (s.user_id = v)))[i - 1]? =
                  ((streamsOf userStreams v)[i - 1]?).map (annotate makeStreamSource))) ∧
        (∀ u v : Nat, 2 ≤ (result.filter (fun s => decide (s.user_id = u))).length →
          streamsOf userStreams v ≠ [] →
            result.filter (fun s => decide (s.user_id = v)) ≠ []) := by
  rw [streamsSelection_eq]
  refine ⟨_, rfl, ?_, ?_⟩
  · intro u v i hi hu
    by_cases hdeg : users = none ∨ users = some []
    · simp [hdeg] at hu
    · simp only [hdeg, if_false] at hu ⊢
      exact selection_fair_core makeStreamSource userStreams amount.toNat u v i hi hu
  · intro u v hu hv
    by_cases hdeg : users = none ∨ users = some []
    · simp [hdeg] at hu
    · simp only [hdeg, if_false] at hu ⊢
      have hcore := (selection_fair_core makeStreamSource userStreams amount.toNat u v 1
        le_rfl (by omega)).2
      have hpos : 1 - 1 < (streamsOf userStreams v).length := by
        cases hs : streamsOf userStreams v with
        | nil => exact absurd hs hv
        | cons _ _ => simp
      have h1 := hcore hpos
      intro hnil
      rw [hnil] at h1
      cases hs : streamsOf userStreams v with
      | nil => exact hv hs
      | cons x xs => rw [hs] at h1; simp at h1

/-- C4 at the scenario of the specification with `amount = 3`: user 1 has a
second element in the answer, and the first stream of user 2 is in the answer. -/
theorem streamsSelection_fair_witness :
    ∃ result,
      streamsSelection (scenarioStreams.length + 1 + 0) sampleSource 3 (some [1, 2])
          scenarioStreams = some result ∧
        1 < (result.filter (fun s => decide (s.user_id = 1))).length ∧
        (result.filter (fun s => decide (s.user_id = 2)))[0]? =
          some { id := 4, user_id := 2, path := some "/media/b1.mp4",
                 source := some "/media/b1.mp4" } := by
  obtain ⟨result, hres, hfair, _⟩ :=
    streamsSelection_fair 0 sampleSource 3 (some [1, 2]) scenarioStreams
  have hval : streamsSelection (scenarioStreams.length + 1 + 0) sampleSource 3 (some [1, 2])
      scenarioStreams =
      some [{ id := 1, user_id := 1, path := some "/media/a1.mp4",
              source := some "/media/a1.mp4" },
            { id := 4, user_id := 2, path := some "/media/b1.mp4",
              source := some "/media/b1.mp4" },
            { id := 2, user_id := 1, path := some "/media/a2.mp4",
              source := some "/media/a2.mp4" }] := by
    decide
  have hr := Option.some.inj (hres.symm.trans hval)
  have hu : 1 < (result.filter (fun s => decide (s.user_id = 1))).length := by
    rw [hr]; decide
  refine ⟨result, hres, hu, ?_⟩
  have h := (hfair 1 2 1 le_rfl hu).2 (by decide)
  rw [h]
  decide

/-- C10. For every user `u` the elements of `u` in the answer are, in order, a
prefix of the streams of `u` in the fetched list (each with its `source` set). -/
theorem streamsSelection_user_initial_segment (extra : Nat) (makeStreamSource : StreamData → String)
    (amount : Int) (users : Option (List Nat)) (userStreams : List StreamData) :
    ∃ result,
      streamsSelection (userStreams.length + 1 + extra) makeStreamSource amount users
          userStreams = some result ∧
        ∀ u : Nat, result.filter (fun s => decide (s.user_id = u)) <+:
          (streamsOf userStreams u).map (annotate makeStreamSource) := by
  rw [streamsSelection_eq]
  refine ⟨_, rfl, ?_⟩
  intro u
  by_cases hdeg : users = none ∨ users = some []
  · simp [hdeg]
  · simp only [hdeg, if_false]
    rw [filter_annotate]
    exact List.IsPrefix.map _ (filter_take_roundRobin_initial userStreams amount.toNat u)

/-! ## `preview`: properties -/

/-- C9 (the code at the failing input). For the absolute recording path
`/media/rec.flv` and a process started in `PWD = /srv/app` the handler checks
`/srv/app/media/rec.jpg` while the transcoder is told to write
`/media/rec.jpg`. The transcoder run of the first call succeeds and leaves its
output on disk, the file the handler sends is missing (404), and the second
call runs the transcoder again. -/
theorem preview_absolute_path_reruns :
    (preview changeExtensionModel pathJoinModel "/srv/app" (existsAt "/srv/app")
        (transcoderModel "/srv/app") (some { path := some "/media/rec.flv" })
        ["/media/rec.flv"]).checked = some "/srv/app/media/rec.jpg" ∧
    (preview changeExtensionModel pathJoinModel "/srv/app" (existsAt "/srv/app")
        (transcoderModel "/srv/app") (some { path := some "/media/rec.flv" })
        ["/media/rec.flv"]).commands = [ffmpegCommand "/media/rec.flv" "/media/rec.jpg"] ∧
    (preview changeExtensionModel pathJoinModel "/srv/app" (existsAt "/srv/app")
        (transcoderModel "/srv/app") (some { path := some "/media/rec.flv" })
        ["/media/rec.flv"]).disk = ["/media/rec.jpg", "/media/rec.flv"] ∧
    (preview changeExtensionModel pathJoinModel "/srv/app" (existsAt "/srv/app")
        (transcoderModel "/srv/app") (some { path := some "/media/rec.flv" })
        ["/media/rec.flv"]).error =
      some { message := "ENOENT: no such file or directory", status := some 404 } ∧
    (preview changeExtensionModel pathJoinModel "/srv/app" (existsAt "/srv/app")
        (transcoderModel "/srv/app") (some { path := some "/media/rec.flv" })
        (preview changeExtensionModel pathJoinModel "/srv/app" (existsAt "/srv/app")
          (transcoderModel "/srv/app") (some { path := some "/media/rec.flv" })
          ["/media/rec.flv"]).disk).commands =
      [ffmpegCommand "/media/rec.flv" "/media/rec.jpg"] := by
  decide

/-- The same happens for the plain relative path `media/rec.flv`, which
`sendStream` serves: `slice(1)` cuts the first letter, the handler checks
`/srv/app/edia/rec.jpg` and the transcoder writes `/srv/app/media/rec.jpg`. -/
theorem preview_plain_relative_path_reruns :
    (preview changeExtensionModel pathJoinModel "/srv/app" (existsAt "/srv/app")
        (transcoderModel "/srv/app") (some { path := some "media/rec.flv" })
        ["/srv/app/media/rec.flv"]).checked = some "/srv/app/edia/rec.jpg" ∧
    (preview changeExtensionModel pathJoinModel "/srv/app" (existsAt "/srv/app")
        (transcoderModel "/srv/app") (some { path := some "media/rec.flv" })
        ["/srv/app/media/rec.flv"]).disk =
      ["/srv/app/media/rec.jpg", "/srv/app/media/rec.flv"] ∧
    (preview changeExtensionModel pathJoinModel "/srv/app" (existsAt "/srv/app")
        (transcoderModel "/srv/app") (some { path := some "media/rec.flv" })
        (preview changeExtensionModel pathJoinModel "/srv/app" (existsAt "/srv/app")
          (transcoderModel "/srv/app") (some { path := some "media/rec.flv" })
          ["/srv/app/media/rec.flv"]).disk).commands =
      [ffmpegCommand "media/rec.flv" "media/rec.jpg"] := by
  decide

/-- For the recording path `./media/rec.flv` and a process whose working
directory is `PWD` the path checked and the path written name one file: the
first call runs the transcoder once and sends the artifact, the second call
runs nothing and sends the same path. -/
theorem preview_dot_relative_path_cached :
    (preview changeExtensionModel pathJoinModel "/srv/app" (existsAt "/srv/app")
        (transcoderModel "/srv/app") (some { path := some "./media/rec.flv" })
        ["/srv/app/media/rec.flv"]).commands =
      [ffmpegCommand "./media/rec.flv" "./media/rec.jpg"] ∧
    (preview changeExtensionModel pathJoinModel "/srv/app" (existsAt "/srv/app")
        (transcoderModel "/srv/app") (some { path := some "./media/rec.flv" })
        ["/srv/app/media/rec.flv"]).sent = some "/srv/app/media/rec.jpg" ∧
    (preview changeExtensionModel pathJoinModel "/srv/app" (existsAt "/srv/app")
        (transcoderModel "/srv/app") (some { path := some "./media/rec.flv" })
        ["/srv/app/media/rec.flv"]).error = none ∧
    (preview changeExtensionModel pathJoinModel "/srv/app" (existsAt "/srv/app")
        (transcoderModel "/srv/app") (some { path := some "./media/rec.flv" })
        (preview changeExtensionModel pathJoinModel "/srv/app" (existsAt "/srv/app")
          (transcoderModel "/srv/app") (some { path := some "./media/rec.flv" })
          ["/srv/app/media/rec.flv"]).disk).commands = [] ∧
    (preview changeExtensionModel pathJoinModel "/srv/app" (existsAt "/srv/app")
        (transcoderModel "/srv/app") (some { path := some "./media/rec.flv" })
        (preview changeExtensionModel pathJoinModel "/srv/app" (existsAt "/srv/app")
          (transcoderModel "/srv/app") (some { path := some "./media/rec.flv" })
          ["/srv/app/media/rec.flv"]).disk).sent = some "/srv/app/media/rec.jpg" := by
  decide

/-- The cache check of the handler, for any file system and any helpers. For a
stream with a recording path `path`, write `full` for
`path.join(PWD, changeExtension(path, 'jpg').slice(1))`. When a file exists at
`full` the handler sends `full` and runs no command. When none exists it runs
one command, the transcoder with output path `changeExtension(path, 'jpg')`.
Of two sequential calls for the stream, the first of which ended without an
error, the second runs no command, so together they run at most one. -/
theorem preview_cache {Disk : Type} (changeExtension : String → String → String)
    (pathJoin : String → String → String) (PWD : String)
    (existsSync : Disk → String → Bool) (exec : String → Disk → Disk × Bool)
    (path : String) (disk : Disk) (hpath : path.isEmpty = false) :
    (existsSync disk (pathJoin PWD ((changeExtension path "jpg").drop 1)) = true →
      (preview changeExtension pathJoin PWD existsSync exec (some { path := some path })
          disk).commands = [] ∧
        (preview changeExtension pathJoin PWD existsSync exec (some { path := some path })
          disk).sent = some (pathJoin PWD ((changeExtension path "jpg").drop 1)) ∧
        (preview changeExtension pathJoin PWD existsSync exec (some { path := some path })
          disk).error = none) ∧
    (existsSync disk (pathJoin PWD ((changeExtension path "jpg").drop 1)) = false →
      (preview changeExtension pathJoin PWD existsSync exec (some { path := some path })
          disk).commands = [ffmpegCommand path (changeExtension path "jpg")]) ∧
    ((preview changeExtension pathJoin PWD existsSync exec (some { path := some path })
          disk).checked = some (pathJoin PWD ((changeExtension path "jpg").drop 1))) ∧
    ((preview changeExtension pathJoin PWD existsSync exec (some { path := some path })
          disk).error = none →
      (preview changeExtension pathJoin PWD existsSync exec (some { path := some path })
          (preview changeExtension pathJoin PWD existsSync exec (some { path := some path })
            disk).disk).commands = [] ∧
        ((preview changeExtension pathJoin PWD existsSync exec (some { path := some path })
            disk).commands ++
          (preview changeExtension pathJoin PWD existsSync exec (some { path := some path })
            (preview changeExtension pathJoin PWD existsSync exec (some { path := some path })
              disk).disk).commands).length ≤ 1) := by
  have key : ∀ d : Disk,
      existsSync d (pathJoin PWD ((changeExtension path "jpg").drop 1)) = true →
        preview changeExtension pathJoin PWD existsSync exec (some { path := some path }) d =
          { commands := [], checked := some (pathJoin PWD ((changeExtension path "jpg").drop 1)),
            sent := some (pathJoin PWD ((changeExtension path "jpg").drop 1)), error := none,
            disk := d } := by
    intro d hd
    simp [preview, sendFile, hpath, hd]
  refine ⟨?_, ?_, ?_, ?_⟩
  · intro h
    rw [key disk h]
    exact ⟨rfl, rfl, rfl⟩
  · intro h
    simp only [preview, sendFile, hpath, h]
    cases hrun : (exec (ffmpegCommand path (changeExtension path "jpg")) disk).2
    · simp [hrun]
    · cases hafter : existsSync (exec (ffmpegCommand path (changeExtension path "jpg")) disk).1
          (pathJoin PWD ((changeExtension path "jpg").drop 1)) <;> simp [hrun, hafter]
  · cases h : existsSync disk (pathJoin PWD ((changeExtension path "jpg").drop 1))
    · simp only [preview, sendFile, hpath, h]
      cases hrun : (exec (ffmpegCommand path (changeExtension path "jpg")) disk).2
      · simp [hrun]
      · cases hafter : existsSync (exec (ffmpegCommand path (changeExtension path "jpg")) disk).1
            (pathJoin PWD ((changeExtension path "jpg").drop 1)) <;> simp [hrun, hafter]
    · rw [key disk h]
  · cases h : existsSync disk (pathJoin PWD ((changeExtension path "jpg").drop 1))
    · simp only [preview, sendFile, hpath, h]
      cases hrun : (exec (ffmpegCommand path (changeExtension path "jpg")) disk).2
      · simp [hrun]
      · cases hafter : existsSync (exec (ffmpegCommand path (changeExtension path "jpg")) disk).1
            (pathJoin PWD ((changeExtension path "jpg").drop 1))
        · simp [hrun, hafter]
        · simp [hrun, hafter, hpath]
    · intro _
      rw [key disk h, key disk h]
      simp

/-- The cache check at a stream recorded as `./media/rec.flv` whose artifact
`/srv/app/media/rec.jpg` is on disk: no command is run. -/
theorem preview_cache_hit_example :
    (preview changeExtensionModel pathJoinModel "/srv/app" (existsAt "/srv/app")
        (transcoderModel "/srv/app") (some { path := some "./media/rec.flv" })
        ["/srv/app/media/rec.jpg"]).commands = [] :=
  ((preview_cache changeExtensionModel pathJoinModel "/srv/app" (existsAt "/srv/app")
      (transcoderModel "/srv/app") "./media/rec.flv" ["/srv/app/media/rec.jpg"]
      (by decide)).1 (by decide)).1

end Veschatel
